import Mathlib

/-!
Verification of the national-parks trip-planner core (stop-order optimizer,
leg builder, day-plan packer, violation detector) against its specification.

The JavaScript core is shallowly embedded below.  Numeric values are
rationals.  The two geometric primitives — the distance estimator
(`milesBetween`, turf great-circle) and the compass bearing
(`bearingBetween`) — compute trigonometry over IEEE doubles; following the
spec's pluggable-estimator boundary they are taken as explicit function
parameters `d` and `brg` throughout, and properties that depend on them
(for example nonnegativity of great-circle distance) appear as hypotheses.
-/

namespace ParksPlanner

/-- Longitude/latitude pair, the app's `[lon, lat]` coordinate arrays. -/
abbrev Coords := ℚ × ℚ

/-- A visitable stop (`selectedParks` entries).  `mustSee` is an optional
field in the source; an absent flag behaves as must-see. -/
structure Stop where
  id : Nat
  name : String
  coords : Coords
  locked : Bool
  mustSee : Option Bool
  deriving Repr, DecidableEq, Inhabited

/-- One directed hop between consecutive stops (`currentLegs` entries).
`geometry` is the display polyline, `[]` until the external router fills it. -/
structure Leg where
  fromId : Nat
  toId : Nat
  fromName : String
  toName : String
  miles : ℚ
  hours : ℚ
  geometry : List Coords
  deriving Repr, DecidableEq, Inhabited

/-- The `tripRules` configuration record. -/
structure TripRules where
  maxDriveHoursPerDay : ℚ
  maxSingleLegHours : ℚ
  breakMinutesPerDay : ℚ
  startTimeHHMM : Option String
  wakeHHMM : Option String
  sleepHHMM : Option String
  speedMph : ℚ
  noBacktracking : Bool
  travelMonth : Nat
  filterClosedParks : Bool
  visitHoursPerPark : ℚ
  deriving Repr, DecidableEq, Inhabited

/-- The app's default `tripRules` literal (travelMonth 0 = any month). -/
def defaultTripRules : TripRules :=
  { maxDriveHoursPerDay := 6
    maxSingleLegHours := 10
    breakMinutesPerDay := 0
    startTimeHHMM := some "08:00"
    wakeHHMM := some "08:00"
    sleepHHMM := some "20:00"
    speedMph := 55
    noBacktracking := false
    travelMonth := 0
    filterClosedParks := true
    visitHoursPerPark := 3/2 }

/-- JS `a || b` over a possibly-missing string field: `undefined` and the
empty string are falsy. -/
def orHHMM (a : Option String) (b : String) : String :=
  match a with
  | none => b
  | some s => if s = "" then b else s

/-- JS `String.prototype.split(":")`, by structural recursion over the
character list: `acc` is the piece being built. -/
def splitColonAux : List Char → String → List String
  | [], acc => [acc]
  | c :: rest, acc =>
    if c = ':' then acc :: splitColonAux rest ""
    else splitColonAux rest (acc.push c)

/-- JS `s.split(":")`. -/
def jsSplitColon (s : String) : List String :=
  splitColonAux s.data ""

/-- Accumulate the value of a decimal-digit run; any non-digit makes the
whole string NaN (`none`). -/
def natOfDigitsAux : List Char → Nat → Option Nat
  | [], acc => some acc
  | c :: rest, acc =>
    if c.isDigit then natOfDigitsAux rest (acc * 10 + (c.toNat - 48))
    else none

/-- JS `Number(s)` on the strings the time inputs produce: whole decimal
numerals; `""` parses to 0 (as `Number("")` does); anything else is NaN,
modelled as `none`. -/
def jsNat? (s : String) : Option Nat :=
  match s.data with
  | [] => some 0
  | c :: rest => natOfDigitsAux (c :: rest) 0

/-- `hhmmToMins`: minutes past midnight of an "HH:MM" string; a missing or
non-numeric hour falls back to 8, a missing or non-numeric minute to 0.
The result is a whole number of minutes. -/
def hhmmToMins (hhmm : String) : Nat :=
  let parts := jsSplitColon hhmm
  let h := match parts.get? 0 with
    | none => 8
    | some s => (jsNat? s).getD 8
  let m := match parts.get? 1 with
    | none => 0
    | some s => (jsNat? s).getD 0
  h * 60 + m

/-- JS `%` for a nonnegative dividend and positive divisor 360. -/
def fmod360 (a : ℚ) : ℚ := a - 360 * (⌊a / 360⌋ : ℤ)

/-- `bearingDiff`: angular difference between two bearings, in [0, 180]. -/
def bearingDiff (b1 b2 : ℚ) : ℚ :=
  let dv := fmod360 |b1 - b2|
  if dv > 180 then 360 - dv else dv

/- ===============================
   LEG BUILDER
================================ -/

/-- One leg of `buildLegs`' loop body: distance from the estimator `d`,
duration `miles / Math.max(1, speedMph)`, geometry filled later. -/
def mkLeg (d : Coords → Coords → ℚ) (rules : TripRules) (a b : Stop) : Leg :=
  { fromId := a.id
    toId := b.id
    fromName := a.name
    toName := b.name
    miles := d a.coords b.coords
    hours := d a.coords b.coords / max 1 rules.speedMph
    geometry := [] }

/-- The `for (let i = 0; i < stopsForLegs.length - 1; i++)` pairing of
consecutive stops. -/
def legsOf (d : Coords → Coords → ℚ) (rules : TripRules) : List Stop → List Leg
  | a :: b :: rest => mkLeg d rules a b :: legsOf d rules (b :: rest)
  | _ => []

/-- `buildLegs(orderedStops, roundTripOn)`: fewer than two stops yield no
legs; round-trip mode appends the first stop again before pairing. -/
def buildLegs (d : Coords → Coords → ℚ) (rules : TripRules)
    (orderedStops : List Stop) (roundTripOn : Bool) : List Leg :=
  if orderedStops.length < 2 then []
  else
    let stopsForLegs :=
      if roundTripOn then orderedStops ++ [orderedStops.headD default]
      else orderedStops
    legsOf d rules stopsForLegs

/- ===============================
   OPTIMIZATION (computeStopOrder)
================================ -/

/-- The strict-min scan of the candidate loop: `bestScore` starts at
Infinity and a candidate wins only with a strictly smaller score, so ties go
to the first-encountered candidate. -/
def pickMin (score : Stop → ℚ) (cands : List Stop) : Option Stop :=
  cands.foldl
    (fun best cand =>
      match best with
      | none => some cand
      | some b => if score cand < score b then some cand else some b)
    none

/-- Candidate score: raw distance from the last-visited position, plus —
when no-backtracking is on, a previous bearing exists, and the distance is
positive — a penalty of `(diff/180) * distance` for reversing direction. -/
def scoreOf (d brg : Coords → Coords → ℚ) (noBack : Bool)
    (lastCoords : Coords) (prevBearing : Option ℚ) (cand : Stop) : ℚ :=
  let s := d lastCoords cand.coords
  match prevBearing with
  | none => s
  | some pb =>
      if noBack = true ∧ 0 < s then
        s + bearingDiff pb (brg lastCoords cand.coords) / 180 * s
      else s

/-- The greedy nearest-neighbour sweep (`while (remaining.size)` loop).
`route` accumulates picked stops; the previous bearing exists once two stops
have been placed.  `fuel` bounds the iteration count; call sites pass
`remaining.length`, and every pass removes the selected stop, so fuel never
runs out there. -/
def nnLoop (d brg : Coords → Coords → ℚ) (noBack : Bool) (seed : Coords) :
    Nat → List Stop → List Stop → List Stop
  | 0, route, _ => route
  | fuel + 1, route, remaining =>
    match remaining with
    | [] => route
    | c :: cs =>
      let lastCoords := ((route.getLast?).map Stop.coords).getD seed
      let prevBearing : Option ℚ :=
        if 2 ≤ route.length then
          ((route.dropLast.getLast?).map Stop.coords).map (fun pc => brg pc lastCoords)
        else none
      match pickMin (scoreOf d brg noBack lastCoords prevBearing) (c :: cs) with
      | none => route
      | some best =>
        nnLoop d brg noBack seed fuel (route ++ [best])
          ((c :: cs).filter (fun p => p.id ≠ best.id))

/-- Reinsertion of locked stops: the JS places each locked stop at its
original index in `rebuilt` and fills the remaining slots from `route[r++]`
in order.  Walking the original list position by position is the same
double loop; `route` always holds exactly as many stops as there are
unlocked slots, so the `headD default` fallback is never consulted on the
call sites below. -/
def reinsert : List Stop → List Stop → List Stop
  | [], _ => []
  | p :: rest, rt =>
    if p.locked then p :: reinsert rest rt
    else rt.headD default :: reinsert rest rt.tail

/-- `computeStopOrder()`: greedy nearest-neighbour ordering of the unlocked
stops, locked stops pinned at their original indices.  `optimizeOn` models
the optimize toggle, `originPoint` the optional origin marker's
coordinates, `selectedParks` the current stop sequence.  Returns
`(orderedStops, optimized)`. -/
def computeStopOrder (d brg : Coords → Coords → ℚ) (rules : TripRules)
    (optimizeOn : Bool) (originPoint : Option Coords)
    (selectedParks : List Stop) : List Stop × Bool :=
  let minForOptimize := if originPoint.isSome then 2 else 3
  if optimizeOn = false ∨ selectedParks.length < minForOptimize then
    (selectedParks, false)
  else
    let unlocked := selectedParks.filter (fun p => !p.locked)
    if unlocked.length ≤ 1 then (selectedParks, false)
    else
      let route :=
        match originPoint with
        | some o => nnLoop d brg rules.noBacktracking o unlocked.length [] unlocked
        | none =>
          let start0 := selectedParks.headD default
          let start :=
            if start0.locked then
              ((selectedParks.find? (fun p => !p.locked)).getD start0)
            else start0
          let remaining := unlocked.filter (fun p => p.id ≠ start.id)
          nnLoop d brg rules.noBacktracking start.coords remaining.length
            [start] remaining
      (reinsert selectedParks route, true)

/- ===============================
   DAY-PLAN PACKER (generateDayPlan)
================================ -/

/-- One scheduled day of the plan.  `legs` holds indices into the leg
array, exactly as `dayLegs.push(i)` does. -/
structure DayEntry where
  day : Nat
  legs : List Nat
  miles : ℚ
  driveHours : ℚ
  visitMins : ℤ
  startMins : ℚ
  endMins : ℚ
  deriving Repr, DecidableEq, Inhabited

/-- The packer's mutable locals, threaded explicitly. -/
structure PackState where
  day : Nat
  dayLegs : List Nat
  dayDriveMins : ℚ
  dayMiles : ℚ
  plan : List DayEntry
  droppedOptional : List String
  deriving Repr, DecidableEq, Inhabited

/-- `pushDay()`: close a non-empty in-progress day, charging visit time once
per intermediate stop (`Math.max(0, dayLegs.length - 1)` visits). -/
def pushDay (wakeMins breakMins : ℚ) (visitMins : ℤ) (st : PackState) :
    PackState :=
  match st.dayLegs with
  | [] => st
  | _ :: _ =>
    let visitsInDay : Nat := st.dayLegs.length - 1
    let totalEndMins :=
      wakeMins + st.dayDriveMins + (visitsInDay : ℚ) * (visitMins : ℚ) + breakMins
    { day := st.day + 1
      dayLegs := []
      dayDriveMins := 0
      dayMiles := 0
      plan := st.plan ++
        [{ day := st.day
           legs := st.dayLegs
           miles := st.dayMiles
           driveHours := st.dayDriveMins / 60
           visitMins := visitMins
           startMins := wakeMins
           endMins := totalEndMins }]
      droppedOptional := st.droppedOptional }

/-- `mustSeeById.get(toId) !== false`: the lookup map is built from
`selectedParks` with later bindings overwriting earlier ones, and a missing
id behaves as must-see. -/
def destIsMustSee (selectedParks : List Stop) (toId : Nat) : Bool :=
  match selectedParks.reverse.find? (fun p => p.id == toId) with
  | none => true
  | some p => p.mustSee != some false

/-- Append leg index `i` to the running day. -/
def addLeg (st : PackState) (i : Nat) (legMins miles : ℚ) : PackState :=
  { st with
      dayLegs := st.dayLegs ++ [i]
      dayDriveMins := st.dayDriveMins + legMins
      dayMiles := st.dayMiles + miles }

/-- One iteration of the packing loop: if the day is non-empty and adding
the leg would exceed the drive budget, an optional destination is dropped
(name recorded) and a must-see destination closes the day first; otherwise
the leg joins the running day. -/
def packStep (budget wakeMins breakMins : ℚ) (visitMins : ℤ)
    (selectedParks : List Stop) (st : PackState) (i : Nat) (leg : Leg) :
    PackState :=
  let legMins := leg.hours * 60
  if st.dayLegs ≠ [] ∧ budget < st.dayDriveMins + legMins then
    if destIsMustSee selectedParks leg.toId then
      addLeg (pushDay wakeMins breakMins visitMins st) i legMins leg.miles
    else
      { st with droppedOptional := st.droppedOptional ++ [leg.toName] }
  else
    addLeg st i legMins leg.miles

/-- The `for (let i = 0; ...)` loop over the legs, `i` carried explicitly. -/
def packLoop (budget wakeMins breakMins : ℚ) (visitMins : ℤ)
    (selectedParks : List Stop) : List Leg → Nat → PackState → PackState
  | [], _, st => st
  | leg :: rest, i, st =>
    packLoop budget wakeMins breakMins visitMins selectedParks rest (i + 1)
      (packStep budget wakeMins breakMins visitMins selectedParks st i leg)

/-- Wake time used by the packer:
`tripRules.wakeHHMM || tripRules.startTimeHHMM || "08:00"`. -/
def packWakeMins (rules : TripRules) : ℚ :=
  (hhmmToMins (orHHMM rules.wakeHHMM (orHHMM rules.startTimeHHMM "08:00")) : ℚ)

/-- The derived daily driving budget in minutes: the wake/sleep window minus
break time, clamped below by 0 and above by `maxDriveHoursPerDay * 60`. -/
def driveBudgetMins (rules : TripRules) : ℚ :=
  let wakeMins := packWakeMins rules
  let sleepMins := (hhmmToMins (orHHMM rules.sleepHHMM "20:00") : ℚ)
  min (max 0 (sleepMins - wakeMins - rules.breakMinutesPerDay))
    (rules.maxDriveHoursPerDay * 60)

/-- The packer's fresh initial state (`day = 1`, everything empty). -/
def initPackState : PackState :=
  { day := 1, dayLegs := [], dayDriveMins := 0, dayMiles := 0, plan := []
    droppedOptional := [] }

/-- `generateDayPlan()`: greedy first-fit packing of the realized legs into
days, returning `(plan, droppedOptional)`. -/
def generateDayPlan (rules : TripRules) (selectedParks : List Stop)
    (currentLegs : List Leg) : List DayEntry × List String :=
  if currentLegs = [] then ([], [])
  else
    let wakeMins := packWakeMins rules
    let breakMins := rules.breakMinutesPerDay
    let visitMins : ℤ := round (rules.visitHoursPerPark * 60)
    let budget := driveBudgetMins rules
    let st :=
      packLoop budget wakeMins breakMins visitMins selectedParks currentLegs 0
        initPackState
    let st' := pushDay wakeMins breakMins visitMins st
    (st'.plan, st'.droppedOptional)

/- ===============================
   VIOLATIONS (computeViolations)
================================ -/

/-- A reported issue: category tag plus human-readable text. -/
structure Violation where
  type : String
  text : String
  deriving Repr, DecidableEq, Inhabited

/-- `fmt(n)` = `Number(n).toFixed(1)` for the nonnegative finite values the
detector formats (rounding to one decimal, ties upward). -/
def fmt (n : ℚ) : String :=
  let scaled : ℤ := round (|n| * 10)
  let sign := if n < 0 then "-" else ""
  sign ++ toString (scaled / 10) ++ "." ++ toString (scaled % 10)

/-- English month name of a 1-based month, rolling over past 12 exactly as
`new Date(2000, m - 1)` does. -/
def monthName (m : Nat) : String :=
  (["January", "February", "March", "April", "May", "June", "July",
    "August", "September", "October", "November", "December"]).getD
    ((m - 1) % 12) "January"

/-- `isParkClosedInMonth(parkCode, month)`: falsy month (0) or park code
("") is never closed; otherwise look the code up in the closed-months
table (`closedMonths`, the `PARK_CLOSED_MONTHS` literal with `[]` for
missing codes). -/
def isParkClosedInMonth (closedMonths : String → List Nat)
    (parkCode : String) (month : Nat) : Bool :=
  if month = 0 ∨ parkCode = "" then false
  else (closedMonths parkCode).contains month

/-- `selectedParks.find(p => p.id === id)?.coords ?? [0,0]`. -/
def coordsOfId (selectedParks : List Stop) (id : Nat) : Coords :=
  ((selectedParks.find? (fun p => p.id == id)).map Stop.coords).getD (0, 0)

/-- Bearing of a leg, reconstructed from its endpoint stops' coordinates. -/
def legBearing (brg : Coords → Coords → ℚ) (selectedParks : List Stop)
    (l : Leg) : ℚ :=
  brg (coordsOfId selectedParks l.fromId) (coordsOfId selectedParks l.toId)

/-- Number of consecutive leg pairs whose bearings differ by more than
120 degrees. -/
def backtrackCount (brg : Coords → Coords → ℚ) (selectedParks : List Stop)
    (legs : List Leg) : Nat :=
  ((legs.zip legs.tail).filter
    (fun pr =>
      decide (120 < bearingDiff (legBearing brg selectedParks pr.1)
        (legBearing brg selectedParks pr.2)))).length

/-- `computeViolations(legs)`: evaluate every rule check on the realized
legs and emit the issue list.  `parksData` maps a stop id to its park code
(the `PARKS_DATA` table, `none` for unknown ids); `optimizeOn` and
`roundTripOn` model the two toggles. -/
def computeViolations (brg : Coords → Coords → ℚ) (rules : TripRules)
    (selectedParks : List Stop) (parksData : Nat → Option String)
    (closedMonths : String → List Nat) (optimizeOn roundTripOn : Bool)
    (legs : List Leg) : List Violation :=
  if legs = [] then []
  else
    let maxLeg := rules.maxSingleLegHours
    let wakeMins := (hhmmToMins (orHHMM rules.wakeHHMM "08:00") : ℚ)
    let sleepMins := (hhmmToMins (orHHMM rules.sleepHHMM "20:00") : ℚ)
    let breakMins := rules.breakMinutesPerDay
    let windowMins :=
      min (max 0 (sleepMins - wakeMins - breakMins))
        (rules.maxDriveHoursPerDay * 60)
    let windowHours := windowMins / 60
    let longest := legs.foldl (fun m l => max m l.hours) 0
    let legIssues :=
      if maxLeg < longest then
        [⟨"leg", "Longest leg is " ++ fmt longest ++ " hrs, exceeds your " ++
          fmt maxLeg ++ " hr single-leg limit."⟩]
      else ([] : List Violation)
    let windowIssues :=
      if windowHours < longest then
        [⟨"window", "A leg (" ++ fmt longest ++ " hrs) exceeds your " ++
          (rules.wakeHHMM.getD "undefined") ++ "–" ++
          (rules.sleepHHMM.getD "undefined") ++ " driving window of " ++
          fmt windowHours ++ " hrs."⟩]
      else ([] : List Violation)
    let totalHours := legs.foldl (fun s l => s + l.hours) 0
    let requiredDays : ℤ :=
      max 1 ⌈totalHours / max (1/10 : ℚ) windowHours⌉
    let dayIssues :=
      if 10 ≤ requiredDays then
        [⟨"days", "Trip requires ~" ++ toString requiredDays ++
          " days. Consider raising max drive hours/day or reducing stops."⟩]
      else ([] : List Violation)
    let btCount := backtrackCount brg selectedParks legs
    let btIssues :=
      if 2 ≤ legs.length ∧ 0 < btCount then
        [⟨"backtrack", toString btCount ++ " leg" ++
          (if 1 < btCount then "s" else "") ++
          " reverse direction significantly." ++
          (if rules.noBacktracking then " No-backtracking is ON and may help."
           else " Enable no-backtracking to reduce this.")⟩]
      else ([] : List Violation)
    let closedIssues :=
      if rules.travelMonth ≠ 0 then
        (selectedParks.filter (fun p =>
          match parksData p.id with
          | none => false
          | some code => isParkClosedInMonth closedMonths code rules.travelMonth)).map
          (fun p => (⟨"closed", p.name ++
            " may be closed or have limited access in " ++
            monthName rules.travelMonth ++ "."⟩ : Violation))
      else []
    let lockedCount := (selectedParks.filter (fun p => p.locked)).length
    let lockIssues :=
      if optimizeOn = true ∧ 0 < lockedCount ∧ roundTripOn = true then
        [⟨"lock", "Optimization with locked stops + round trip is constrained. Try one-way or unlock stops."⟩]
      else ([] : List Violation)
    legIssues ++ windowIssues ++ dayIssues ++ btIssues ++ closedIssues ++
      lockIssues

/- ===============================
   CONCRETE FIXTURES
================================ -/

/-- Example stop at the origin. -/
def stopA : Stop := { id := 1, name := "A", coords := (0, 0), locked := false, mustSee := none }

/-- Example stop one degree east. -/
def stopB : Stop := { id := 2, name := "B", coords := (1, 0), locked := false, mustSee := none }

/-- Example locked stop two degrees east. -/
def stopCL : Stop := { id := 3, name := "C", coords := (2, 0), locked := true, mustSee := none }

/-- A concrete pluggable distance estimator (taxicab) for witnesses. -/
def taxiDist : Coords → Coords → ℚ := fun a b => |a.1 - b.1| + |a.2 - b.2|

/-- A concrete bearing function for witnesses. -/
def zeroBearing : Coords → Coords → ℚ := fun _ _ => 0

lemma taxiDist_nonneg : ∀ a b, 0 ≤ taxiDist a b := fun _ _ =>
  add_nonneg (abs_nonneg _) (abs_nonneg _)

/- ===============================
   LEG-BUILDER LEMMAS
================================ -/

lemma legsOf_length (d : Coords → Coords → ℚ) (rules : TripRules) :
    ∀ xs : List Stop, (legsOf d rules xs).length = xs.length - 1 := by
  intro xs
  induction xs with
  | nil => simp [legsOf]
  | cons a rest ih =>
    cases rest with
    | nil => simp [legsOf]
    | cons b rest' =>
      simp only [legsOf, List.length_cons] at ih ⊢
      omega

lemma legsOf_mem (d : Coords → Coords → ℚ) (rules : TripRules) :
    ∀ (xs : List Stop) (l : Leg), l ∈ legsOf d rules xs →
      ∃ a b, l = mkLeg d rules a b := by
  intro xs
  induction xs with
  | nil => intro l hl; simp [legsOf] at hl
  | cons a rest ih =>
    cases rest with
    | nil => intro l hl; simp [legsOf] at hl
    | cons b rest' =>
      intro l hl
      simp only [legsOf, List.mem_cons] at hl
      rcases hl with h | h
      · exact ⟨a, b, h⟩
      · exact ih l h

lemma legsOf_snoc_sum (d : Coords → Coords → ℚ) (rules : TripRules)
    (hd : ∀ a b, 0 ≤ d a b) :
    ∀ (xs : List Stop) (y : Stop),
      ((legsOf d rules xs).map Leg.miles).sum ≤
        ((legsOf d rules (xs ++ [y])).map Leg.miles).sum := by
  intro xs
  induction xs with
  | nil => intro y; simp [legsOf]
  | cons a rest ih =>
    intro y
    cases rest with
    | nil =>
      simp only [legsOf, List.nil_append, List.singleton_append, List.map_nil,
        List.map_cons, List.sum_nil, List.sum_cons, add_zero]
      exact hd _ _
    | cons b rest' =>
      simp only [List.cons_append, legsOf, List.map_cons, List.sum_cons]
      exact add_le_add_left (ih y) _

lemma buildLegs_off_eq (d : Coords → Coords → ℚ) (rules : TripRules)
    (stops : List Stop) (h : ¬ stops.length < 2) :
    buildLegs d rules stops false = legsOf d rules stops := by
  simp [buildLegs, h]

lemma buildLegs_on_eq (d : Coords → Coords → ℚ) (rules : TripRules)
    (stops : List Stop) (h : ¬ stops.length < 2) :
    buildLegs d rules stops true =
      legsOf d rules (stops ++ [stops.headD default]) := by
  simp [buildLegs, h]

/-- C6 (amended): `buildLegs` yields `n - 1` legs with round-trip off, and
`n` legs with round-trip on provided `n ≠ 1` (a single stop is below the
two-stop guard and yields no legs). -/
theorem buildLegs_length (d : Coords → Coords → ℚ) (rules : TripRules)
    (stops : List Stop) :
    (buildLegs d rules stops false).length = stops.length - 1 ∧
    (stops.length ≠ 1 →
      (buildLegs d rules stops true).length = stops.length) := by
  by_cases h : stops.length < 2
  · constructor
    · simp [buildLegs, h]; omega
    · intro h1; simp [buildLegs, h]; omega
  · constructor
    · simp [buildLegs, h, legsOf_length]
    · intro _
      rw [buildLegs_on_eq d rules stops h, legsOf_length]
      simp

/-- Witness for `buildLegs_length` at a concrete two-stop input. -/
theorem buildLegs_length_witness :
    ([stopA, stopB].length ≠ 1) ∧
    (buildLegs taxiDist defaultTripRules [stopA, stopB] true).length =
      [stopA, stopB].length :=
  ⟨by decide,
    (buildLegs_length taxiDist defaultTripRules [stopA, stopB]).2 (by decide)⟩

/-- The half-speed rules used by the C7 counterexample. -/
def halfSpeedRules : TripRules := { defaultTripRules with speedMph := 1/2 }

/-- Counterexample to C6 as stated: a single stop with round-trip on
produces 0 legs, not 1. -/
theorem buildLegs_singleton_roundTrip_cex :
    (buildLegs taxiDist defaultTripRules [stopA] true).length = 0 ∧
    [stopA].length = 1 := by
  decide

/-- C7 (amended): every leg's duration is its distance divided by
`max 1 speedMph`; this equals `miles / speedMph` exactly when
`speedMph ≥ 1`. -/
theorem buildLegs_hours (d : Coords → Coords → ℚ) (rules : TripRules)
    (stops : List Stop) (rt : Bool) (l : Leg)
    (hl : l ∈ buildLegs d rules stops rt) :
    l.hours = l.miles / max 1 rules.speedMph ∧
    (1 ≤ rules.speedMph → l.hours = l.miles / rules.speedMph) := by
  have hx : ∃ a b, l = mkLeg d rules a b := by
    by_cases h : stops.length < 2
    · simp [buildLegs, h] at hl
    · simp only [buildLegs, if_neg h] at hl
      exact legsOf_mem d rules _ l hl
  obtain ⟨a, b, rfl⟩ := hx
  constructor
  · rfl
  · intro hs
    simp [mkLeg, max_eq_right hs]

/-- Witness for `buildLegs_hours` at a concrete leg and the default
55 mph speed. -/
theorem buildLegs_hours_witness :
    (mkLeg taxiDist defaultTripRules stopA stopB).hours =
      (mkLeg taxiDist defaultTripRules stopA stopB).miles /
        defaultTripRules.speedMph :=
  (buildLegs_hours taxiDist defaultTripRules [stopA, stopB] false _
    (by simp [buildLegs, legsOf])).2 (by norm_num [defaultTripRules])

/-- Counterexample to C7 as stated: with the positive speed 1/2 mph the
code clamps the divisor to 1, so hours differ from miles / speedMph. -/
theorem buildLegs_hours_cex :
    (0 : ℚ) < halfSpeedRules.speedMph ∧
    ∃ l ∈ buildLegs taxiDist halfSpeedRules [stopA, stopB] false,
      l.hours ≠ l.miles / halfSpeedRules.speedMph := by
  refine ⟨by norm_num [halfSpeedRules, defaultTripRules],
    mkLeg taxiDist halfSpeedRules stopA stopB, by simp [buildLegs, legsOf], ?_⟩
  simp only [mkLeg, taxiDist, stopA, stopB, halfSpeedRules, defaultTripRules]
  norm_num

/-- C9: with a nonnegative distance estimator (great-circle distance is
nonnegative), total leg miles with round-trip on dominate the total with
round-trip off. -/
theorem buildLegs_roundTrip_miles (d : Coords → Coords → ℚ)
    (rules : TripRules) (stops : List Stop) (hd : ∀ a b, 0 ≤ d a b) :
    ((buildLegs d rules stops false).map Leg.miles).sum ≤
    ((buildLegs d rules stops true).map Leg.miles).sum := by
  by_cases h : stops.length < 2
  · simp [buildLegs, h]
  · rw [buildLegs_off_eq d rules stops h, buildLegs_on_eq d rules stops h]
    exact legsOf_snoc_sum d rules hd stops _

/-- Witness for `buildLegs_roundTrip_miles` on a concrete two-stop set. -/
theorem buildLegs_roundTrip_miles_witness :
    ((buildLegs taxiDist defaultTripRules [stopA, stopB] false).map
      Leg.miles).sum ≤
    ((buildLegs taxiDist defaultTripRules [stopA, stopB] true).map
      Leg.miles).sum :=
  buildLegs_roundTrip_miles taxiDist defaultTripRules [stopA, stopB]
    taxiDist_nonneg

/- ===============================
   OPTIMIZER LEMMAS
================================ -/

/-- A constant distance estimator; keeps concrete optimizer runs free of
rational normalization. -/
def oneDist : Coords → Coords → ℚ := fun _ _ => 1

lemma reinsert_get? :
    ∀ (parks route : List Stop) (i : Nat) (p : Stop),
      parks.get? i = some p → p.locked = true →
      (reinsert parks route).get? i = some p := by
  intro parks
  induction parks with
  | nil => intro route i p hp _; simp at hp
  | cons q rest ih =>
    intro route i p hp hl
    cases i with
    | zero =>
      obtain rfl : q = p := by simpa using hp
      simp [reinsert, hl]
    | succ n =>
      have hp' : rest.get? n = some p := by simpa using hp
      by_cases hq : q.locked = true
      · simp only [reinsert, if_pos hq, List.get?_cons_succ]
        exact ih _ n p hp' hl
      · simp only [reinsert, if_neg hq, List.get?_cons_succ]
        exact ih _ n p hp' hl

/-- C2: a locked stop is returned at exactly its input index by
`computeStopOrder`, whatever the distance estimator, bearing function,
rules, toggle, origin and surrounding stops are. -/
theorem optimizer_preserves_locked (d brg : Coords → Coords → ℚ)
    (rules : TripRules) (optimizeOn : Bool) (origin : Option Coords)
    (parks : List Stop) (i : Nat) (p : Stop)
    (hp : parks.get? i = some p) (hl : p.locked = true) :
    ((computeStopOrder d brg rules optimizeOn origin parks).1).get? i =
      some p := by
  simp only [computeStopOrder]
  split
  · split
    · exact hp
    · split
      · exact hp
      · exact reinsert_get? parks _ i p hp hl
  · split
    · exact hp
    · split
      · exact hp
      · exact reinsert_get? parks _ i p hp hl

/-- Witness for `optimizer_preserves_locked`: stop C is locked at index 1
and stays there through an actual optimization pass. -/
theorem optimizer_preserves_locked_witness :
    ((computeStopOrder oneDist zeroBearing defaultTripRules true none
      [stopA, stopCL, stopB]).1).get? 1 = some stopCL :=
  optimizer_preserves_locked oneDist zeroBearing defaultTripRules true none
    [stopA, stopCL, stopB] 1 stopCL rfl rfl

/-- C3 (amended): with the optimize toggle on, `computeStopOrder` skips —
returning the input order and `optimized = false` — exactly when the TOTAL
stop count is below the minimum (3 without an origin, 2 with one) or at
most one stop is unlocked.  The unlocked count on its own does not decide
the guard. -/
theorem optimizer_skip_iff (d brg : Coords → Coords → ℚ) (rules : TripRules)
    (origin : Option Coords) (parks : List Stop) :
    ((computeStopOrder d brg rules true origin parks).1 = parks ∧
      (computeStopOrder d brg rules true origin parks).2 = false) ↔
    (parks.length < (if origin.isSome then 2 else 3) ∨
      (parks.filter (fun p => !p.locked)).length ≤ 1) := by
  by_cases h1 : parks.length < (if origin.isSome then 2 else 3)
  · simp only [computeStopOrder, if_pos (Or.inr h1)]
    simp [h1]
  · have hcond : ¬ (true = false ∨
        parks.length < (if origin.isSome then 2 else 3)) := by
      rintro (h | h)
      · exact absurd h (by decide)
      · exact h1 h
    by_cases h2 : (parks.filter (fun p => !p.locked)).length ≤ 1
    · simp only [computeStopOrder, if_neg hcond, if_pos h2]
      simp [h2]
    · simp only [computeStopOrder, if_neg hcond, if_neg h2]
      simp [h1, h2]

/-- Witness for `optimizer_skip_iff`: a single-stop input is below the
minimum, so the optimizer returns it unchanged with `optimized = false`. -/
theorem optimizer_skip_iff_witness :
    (computeStopOrder oneDist zeroBearing defaultTripRules true none
      [stopA]).1 = [stopA] ∧
    (computeStopOrder oneDist zeroBearing defaultTripRules true none
      [stopA]).2 = false :=
  (optimizer_skip_iff oneDist zeroBearing defaultTripRules none [stopA]).2
    (by decide)

/-- Counterexample to C3 as stated: three stops of which only two are
unlocked (below the claimed minimum of 3 unlocked stops, no origin), yet
the code optimizes because the TOTAL count reaches 3. -/
theorem optimizer_skip_cex :
    (([stopA, stopB, stopCL].filter (fun p => !p.locked)).length < 3) ∧
    (computeStopOrder oneDist zeroBearing defaultTripRules true none
      [stopA, stopB, stopCL]).2 = true := by
  exact ⟨by decide, rfl⟩

/- ===============================
   DETECTOR LEMMAS
================================ -/

/-- C8: `computeViolations` on an empty leg list reports no violations of
any category; the embedding is a total function, so it returns a (possibly
empty) list on every input. -/
theorem detect_empty (brg : Coords → Coords → ℚ) (rules : TripRules)
    (selectedParks : List Stop) (parksData : Nat → Option String)
    (closedMonths : String → List Nat) (optimizeOn roundTripOn : Bool) :
    computeViolations brg rules selectedParks parksData closedMonths
      optimizeOn roundTripOn [] = [] := rfl

/- ===============================
   PACKER LEMMAS
================================ -/

/-- All leg indices the packer has committed so far: closed days first,
then the running day. -/
def assignedOf (st : PackState) : List Nat :=
  (st.plan.map DayEntry.legs).flatten ++ st.dayLegs

/-- Names of the legs among the first `k` whose index is not in `A`, in
index order. -/
def droppedNamesUpTo (legs : List Leg) (k : Nat) (A : List Nat) :
    List String :=
  ((List.range k).filter (fun j => decide (j ∉ A))).map
    (fun j => (legs.getD j default).toName)

lemma pushDay_assigned (w b : ℚ) (v : ℤ) (st : PackState) :
    assignedOf (pushDay w b v st) = assignedOf st := by
  cases h : st.dayLegs with
  | nil => simp [pushDay, h]
  | cons x xs => simp [pushDay, h, assignedOf]

lemma pushDay_dropped (w b : ℚ) (v : ℤ) (st : PackState) :
    (pushDay w b v st).droppedOptional = st.droppedOptional := by
  cases h : st.dayLegs with
  | nil => simp [pushDay, h]
  | cons x xs => simp [pushDay, h]

lemma pushDay_dayLegs (w b : ℚ) (v : ℤ) (st : PackState) :
    (pushDay w b v st).dayLegs = [] := by
  cases h : st.dayLegs with
  | nil => simp [pushDay, h]
  | cons x xs => simp [pushDay, h]

lemma pushDay_plan_mem (w b : ℚ) (v : ℤ) (st : PackState) (e : DayEntry)
    (he : e ∈ st.plan) : e ∈ (pushDay w b v st).plan := by
  cases h : st.dayLegs with
  | nil => simpa [pushDay, h] using he
  | cons x xs => simp [pushDay, h, he]

lemma addLeg_assigned (st : PackState) (i : Nat) (m mi : ℚ) :
    assignedOf (addLeg st i m mi) = assignedOf st ++ [i] := by
  simp [addLeg, assignedOf]

/-- Every packing step either commits the leg's index (same dropped list)
or drops an optional destination (same assignment). -/
lemma packStep_cases (budget w b : ℚ) (v : ℤ) (parks : List Stop)
    (st : PackState) (i : Nat) (leg : Leg) :
    (assignedOf (packStep budget w b v parks st i leg) =
        assignedOf st ++ [i] ∧
      (packStep budget w b v parks st i leg).droppedOptional =
        st.droppedOptional) ∨
    (assignedOf (packStep budget w b v parks st i leg) = assignedOf st ∧
      (packStep budget w b v parks st i leg).droppedOptional =
        st.droppedOptional ++ [leg.toName] ∧
      destIsMustSee parks leg.toId = false) := by
  simp only [packStep]
  by_cases hday : st.dayLegs ≠ [] ∧ budget < st.dayDriveMins + leg.hours * 60
  · rw [if_pos hday]
    by_cases hms : destIsMustSee parks leg.toId = true
    · rw [if_pos hms]
      left
      exact ⟨by rw [addLeg_assigned, pushDay_assigned],
        by simp [addLeg, pushDay_dropped]⟩
    · rw [if_neg hms]
      right
      exact ⟨rfl, rfl, by simpa using hms⟩
  · rw [if_neg hday]
    left
    exact ⟨addLeg_assigned st i _ _, rfl⟩

/-- The packing-loop invariant after the first `k` legs: committed indices
are strictly increasing and below `k`; the dropped-name list is exactly the
names of the uncommitted indices, in order; and every uncommitted index had
an optional destination. -/
def PackInv (legs : List Leg) (parks : List Stop) (k : Nat)
    (st : PackState) : Prop :=
  List.Sorted (· < ·) (assignedOf st) ∧
  (∀ j ∈ assignedOf st, j < k) ∧
  st.droppedOptional = droppedNamesUpTo legs k (assignedOf st) ∧
  (∀ j, j < k → j ∉ assignedOf st →
    destIsMustSee parks (legs.getD j default).toId = false)

lemma droppedNamesUpTo_commit (legs : List Leg) (k : Nat) (A : List Nat)
    (hb : ∀ j ∈ A, j < k) :
    droppedNamesUpTo legs (k + 1) (A ++ [k]) =
      droppedNamesUpTo legs k A := by
  unfold droppedNamesUpTo
  rw [List.range_succ, List.filter_append]
  have h1 : List.filter (fun j => decide (j ∉ A ++ [k])) [k] = [] := by
    simp
  have h2 : List.filter (fun j => decide (j ∉ A ++ [k])) (List.range k) =
      List.filter (fun j => decide (j ∉ A)) (List.range k) := by
    refine List.filter_congr ?_
    intro j hj
    rw [List.mem_range] at hj
    rw [decide_eq_decide]
    have : j ≠ k := Nat.ne_of_lt hj
    simp [this]
  rw [h1, h2, List.append_nil]

lemma droppedNamesUpTo_drop (legs : List Leg) (k : Nat) (A : List Nat)
    (hb : ∀ j ∈ A, j < k) :
    droppedNamesUpTo legs (k + 1) A =
      droppedNamesUpTo legs k A ++ [(legs.getD k default).toName] := by
  unfold droppedNamesUpTo
  rw [List.range_succ, List.filter_append]
  have h1 : List.filter (fun j => decide (j ∉ A)) [k] = [k] := by
    have : k ∉ A := fun hk => absurd (hb k hk) (lt_irrefl k)
    simp [this]
  rw [h1, List.map_append]
  simp

lemma packStep_inv (budget w b : ℚ) (v : ℤ) (parks : List Stop)
    (legs : List Leg) (k : Nat) (leg : Leg)
    (hleg : legs.get? k = some leg) (st : PackState)
    (h : PackInv legs parks k st) :
    PackInv legs parks (k + 1) (packStep budget w b v parks st k leg) := by
  obtain ⟨hs, hb, hd, ho⟩ := h
  rcases packStep_cases budget w b v parks st k leg with
    ⟨ha, hdp⟩ | ⟨ha, hdp, hopt⟩
  · refine ⟨?_, ?_, ?_, ?_⟩
    · rw [ha]
      exact List.pairwise_append.2
        ⟨hs, List.pairwise_singleton _ _,
          fun x hx y hy => by
            rw [List.mem_singleton] at hy; subst hy; exact hb x hx⟩
    · intro j hj
      rw [ha, List.mem_append] at hj
      rcases hj with hj | hj
      · exact Nat.lt_succ_of_lt (hb j hj)
      · rw [List.mem_singleton] at hj; omega
    · rw [hdp, hd, ha, droppedNamesUpTo_commit legs k _ hb]
    · intro j hj hnj
      rw [ha, List.mem_append] at hnj
      push_neg at hnj
      rcases Nat.lt_succ_iff_lt_or_eq.1 hj with hj' | rfl
      · exact ho j hj' hnj.1
      · exact absurd (List.mem_singleton.2 rfl) hnj.2
  · refine ⟨?_, ?_, ?_, ?_⟩
    · rw [ha]; exact hs
    · intro j hj
      rw [ha] at hj
      exact Nat.lt_succ_of_lt (hb j hj)
    · rw [hdp, hd, ha, droppedNamesUpTo_drop legs k _ hb]
      have : (legs.getD k default) = leg := by
        rw [List.getD_eq_get?, hleg]; rfl
      rw [this]
    · intro j hj hnj
      rw [ha] at hnj
      rcases Nat.lt_succ_iff_lt_or_eq.1 hj with hj' | rfl
      · exact ho j hj' hnj
      · have : (legs.getD j default) = leg := by
          rw [List.getD_eq_get?, hleg]; rfl
        rw [this]
        exact hopt

lemma packLoop_inv (budget w b : ℚ) (v : ℤ) (parks : List Stop)
    (legs : List Leg) :
    ∀ (rest : List Leg) (k : Nat) (st : PackState),
      legs.drop k = rest → PackInv legs parks k st →
      PackInv legs parks (k + rest.length)
        (packLoop budget w b v parks rest k st) := by
  intro rest
  induction rest with
  | nil => intro k st _ h; simpa using h
  | cons leg rest' ih =>
    intro k st hdrop h
    have hget : legs.get? k = some leg := by
      have h0 : (legs.drop k).get? 0 = legs.get? (k + 0) := List.get?_drop legs k 0
      rw [hdrop] at h0
      simpa using h0.symm
    have hdrop' : legs.drop (k + 1) = rest' := by
      have : List.drop 1 (legs.drop k) = legs.drop (k + 1) := List.drop_drop 1 k legs
      rw [hdrop] at this
      simpa using this.symm
    have hstep := packStep_inv budget w b v parks legs k leg hget st h
    have := ih (k + 1) _ hdrop' hstep
    have harith : k + 1 + rest'.length = k + (leg :: rest').length := by
      simp [List.length_cons]; omega
    rw [harith] at this
    exact this

/-- The packer's master invariant: the returned plan's concatenated index
lists are strictly increasing and bounded by the leg count, the dropped
names are exactly the names of the unassigned indices in order, and every
unassigned index had an optional destination. -/
lemma generateDayPlan_inv (rules : TripRules) (parks : List Stop)
    (legs : List Leg) :
    List.Sorted (· < ·)
      (((generateDayPlan rules parks legs).1.map DayEntry.legs).flatten) ∧
    (∀ j ∈ ((generateDayPlan rules parks legs).1.map DayEntry.legs).flatten,
      j < legs.length) ∧
    (generateDayPlan rules parks legs).2 =
      droppedNamesUpTo legs legs.length
        (((generateDayPlan rules parks legs).1.map DayEntry.legs).flatten) ∧
    (∀ j, j < legs.length →
      j ∉ ((generateDayPlan rules parks legs).1.map DayEntry.legs).flatten →
      destIsMustSee parks (legs.getD j default).toId = false) := by
  by_cases hne : legs = []
  · subst hne
    refine ⟨?_, ?_, ?_, ?_⟩ <;>
      simp [generateDayPlan, droppedNamesUpTo]
  · have hinit : PackInv legs parks 0 initPackState := by
      refine ⟨?_, ?_, ?_, ?_⟩
      · simp [assignedOf, initPackState, List.Sorted]
      · intro j hj; simp [assignedOf, initPackState] at hj
      · simp [assignedOf, initPackState, droppedNamesUpTo]
      · intro j hj; omega
    have hloop := packLoop_inv (driveBudgetMins rules) (packWakeMins rules)
      rules.breakMinutesPerDay (round (rules.visitHoursPerPark * 60)) parks
      legs legs 0 initPackState (by simp) hinit
    rw [Nat.zero_add] at hloop
    set stf := packLoop (driveBudgetMins rules) (packWakeMins rules)
      rules.breakMinutesPerDay (round (rules.visitHoursPerPark * 60)) parks
      legs 0 initPackState with hstf
    have hres : generateDayPlan rules parks legs =
        ((pushDay (packWakeMins rules) rules.breakMinutesPerDay
            (round (rules.visitHoursPerPark * 60)) stf).plan,
          (pushDay (packWakeMins rules) rules.breakMinutesPerDay
            (round (rules.visitHoursPerPark * 60)) stf).droppedOptional) := by
      simp only [generateDayPlan, if_neg hne, hstf]
    have hjoin :
        (((generateDayPlan rules parks legs).1.map DayEntry.legs).flatten) =
          assignedOf stf := by
      rw [hres]
      have h1 : assignedOf (pushDay (packWakeMins rules)
          rules.breakMinutesPerDay (round (rules.visitHoursPerPark * 60))
          stf) = assignedOf stf := pushDay_assigned _ _ _ _
      rw [← h1]
      unfold assignedOf
      rw [pushDay_dayLegs, List.append_nil]
    obtain ⟨hs, hb, hd, ho⟩ := hloop
    refine ⟨?_, ?_, ?_, ?_⟩
    · rw [hjoin]; exact hs
    · rw [hjoin]; exact hb
    · rw [hjoin, hres]
      rw [pushDay_dropped]
      exact hd
    · rw [hjoin]; exact ho

/- ===============================
   PACKER FIXTURES
================================ -/

/-- Rules with a one-hour daily driving cap and no visit time. -/
def oneHourRules : TripRules :=
  { defaultTripRules with maxDriveHoursPerDay := 1, visitHoursPerPark := 0 }

/-- Stop B marked optional (`mustSee = false`). -/
def stopBOpt : Stop := { stopB with mustSee := some false }

/-- A one-hour leg from A to B. -/
def legAB : Leg :=
  { fromId := 1, toId := 2, fromName := "A", toName := "B", miles := 10,
    hours := 1, geometry := [] }

/-- A two-hour leg ending at optional stop B, longer than the one-hour
budget by itself. -/
def legBBOver : Leg :=
  { fromId := 2, toId := 2, fromName := "B", toName := "B", miles := 20,
    hours := 2, geometry := [] }

/-- A two-hour leg from B to C (id 3 is not among the parks, hence
must-see by default). -/
def legBCOver : Leg :=
  { fromId := 2, toId := 3, fromName := "B", toName := "C", miles := 20,
    hours := 2, geometry := [] }

lemma hhmm_0800 : hhmmToMins "08:00" = 480 := by decide

lemma hhmm_2000 : hhmmToMins "20:00" = 1200 := by decide

lemma oneHourRules_budget : driveBudgetMins oneHourRules = 60 := by
  norm_num [driveBudgetMins, packWakeMins, oneHourRules, defaultTripRules,
    orHHMM, hhmm_0800, hhmm_2000]

lemma oneHourRules_wake : packWakeMins oneHourRules = 480 := by
  norm_num [packWakeMins, oneHourRules, defaultTripRules, orHHMM, hhmm_0800]

lemma oneHourRules_break : oneHourRules.breakMinutesPerDay = 0 := rfl

lemma oneHourRules_visit : round (oneHourRules.visitHoursPerPark * 60) = 0 := by
  norm_num [oneHourRules, defaultTripRules]

lemma destB_opt : destIsMustSee [stopA, stopBOpt] 2 = false := by decide

/-- Full evaluation of the packer on a one-hour leg followed by an
oversized optional leg: the optional leg is dropped. -/
lemma pack_cex_eval :
    ((generateDayPlan oneHourRules [stopA, stopBOpt] [legAB, legBBOver]).1.map
      DayEntry.legs) = [[0]] ∧
    (generateDayPlan oneHourRules [stopA, stopBOpt] [legAB, legBBOver]).2 =
      ["B"] := by
  unfold generateDayPlan
  rw [if_neg (show ¬ ([legAB, legBBOver] : List Leg) = [] by simp)]
  norm_num [packLoop, packStep, addLeg, pushDay,
    initPackState, oneHourRules_budget, oneHourRules_wake, oneHourRules_break,
    oneHourRules_visit, destB_opt, legAB, legBBOver]

/- ===============================
   PACKER CLAIM THEOREMS
================================ -/

/-- C1: no leg with a must-see destination (`mustSee` true or unset) is
ever dropped — it lands in some day of the plan; every name recorded in
`droppedOptional` belongs to a leg whose destination stop is optional
(`mustSee = false`); and conversely every dropped leg — one assigned to no
day of the plan — has its destination name recorded in `droppedOptional`. -/
theorem pack_never_drops_mustsee (rules : TripRules) (parks : List Stop)
    (legs : List Leg) :
    (∀ i, i < legs.length →
      destIsMustSee parks ((legs.getD i default).toId) = true →
      ∃ e ∈ (generateDayPlan rules parks legs).1, i ∈ e.legs) ∧
    (∀ nm ∈ (generateDayPlan rules parks legs).2,
      ∃ l ∈ legs, l.toName = nm ∧ destIsMustSee parks l.toId = false) ∧
    (∀ i, i < legs.length →
      (¬ ∃ e ∈ (generateDayPlan rules parks legs).1, i ∈ e.legs) →
      (legs.getD i default).toName ∈ (generateDayPlan rules parks legs).2) := by
  obtain ⟨hs, hb, hd, ho⟩ := generateDayPlan_inv rules parks legs
  refine ⟨?_, ?_, ?_⟩
  · intro i hi hms
    by_cases hmem :
      i ∈ ((generateDayPlan rules parks legs).1.map DayEntry.legs).flatten
    · rw [List.mem_flatten] at hmem
      obtain ⟨l, hl, hil⟩ := hmem
      rw [List.mem_map] at hl
      obtain ⟨e, he, rfl⟩ := hl
      exact ⟨e, he, hil⟩
    · have := ho i hi hmem
      rw [hms] at this
      exact Bool.noConfusion this
  · intro nm hnm
    rw [hd] at hnm
    unfold droppedNamesUpTo at hnm
    rw [List.mem_map] at hnm
    obtain ⟨j, hj, rfl⟩ := hnm
    rw [List.mem_filter, List.mem_range] at hj
    obtain ⟨hjlen, hjdec⟩ := hj
    have hjnot := of_decide_eq_true hjdec
    have hget : legs.getD j default = legs.get ⟨j, hjlen⟩ := by
      rw [List.getD_eq_get?, List.get?_eq_get hjlen]
      rfl
    refine ⟨legs.getD j default, ?_, rfl, ho j hjlen hjnot⟩
    rw [hget]
    exact List.get_mem legs j hjlen
  · intro i hi hnone
    have hmem :
        i ∉ ((generateDayPlan rules parks legs).1.map DayEntry.legs).flatten := by
      intro hm
      rw [List.mem_flatten] at hm
      obtain ⟨l, hl, hil⟩ := hm
      rw [List.mem_map] at hl
      obtain ⟨e, he, rfl⟩ := hl
      exact hnone ⟨e, he, hil⟩
    rw [hd]
    unfold droppedNamesUpTo
    rw [List.mem_map]
    exact ⟨i, List.mem_filter.2
      ⟨List.mem_range.2 hi, decide_eq_true hmem⟩, rfl⟩

/-- Witness for `pack_never_drops_mustsee`: leg 0 ends at stop B, which is
must-see here (its flag is unset), so leg 0 lands in some day. -/
theorem pack_never_drops_mustsee_witness :
    ∃ e ∈ (generateDayPlan oneHourRules [stopA, stopB] [legAB, legBCOver]).1,
      0 ∈ e.legs :=
  (pack_never_drops_mustsee oneHourRules [stopA, stopB] [legAB, legBCOver]).1
    0 (by decide) (by decide)

/-- C4 (amended): every input leg index is either assigned to exactly one
day of the plan, or absent from every day with its destination name
recorded in `droppedOptional` — the code can drop a leg whose destination
is optional, so "no leg is absent from all days" does not hold verbatim. -/
theorem pack_each_leg_once (rules : TripRules) (parks : List Stop)
    (legs : List Leg) (i : Nat) (hi : i < legs.length) :
    ((generateDayPlan rules parks legs).1.map DayEntry.legs).flatten.count i
        = 1 ∨
    (((generateDayPlan rules parks legs).1.map DayEntry.legs).flatten.count i
        = 0 ∧
      (legs.getD i default).toName ∈ (generateDayPlan rules parks legs).2) := by
  obtain ⟨hs, hb, hd, ho⟩ := generateDayPlan_inv rules parks legs
  by_cases hmem :
    i ∈ ((generateDayPlan rules parks legs).1.map DayEntry.legs).flatten
  · exact Or.inl (List.count_eq_one_of_mem hs.nodup hmem)
  · refine Or.inr ⟨List.count_eq_zero.2 hmem, ?_⟩
    rw [hd]
    unfold droppedNamesUpTo
    rw [List.mem_map]
    exact ⟨i, List.mem_filter.2
      ⟨List.mem_range.2 hi, decide_eq_true hmem⟩, rfl⟩

/-- Witness for `pack_each_leg_once` at leg index 0 of a concrete input. -/
theorem pack_each_leg_once_witness :
    ((generateDayPlan oneHourRules [stopA, stopBOpt] [legAB, legBBOver]).1.map
        DayEntry.legs).flatten.count 0 = 1 ∨
    (((generateDayPlan oneHourRules [stopA, stopBOpt] [legAB, legBBOver]).1.map
        DayEntry.legs).flatten.count 0 = 0 ∧
      ([legAB, legBBOver].getD 0 default).toName ∈
        (generateDayPlan oneHourRules [stopA, stopBOpt] [legAB, legBBOver]).2) :=
  pack_each_leg_once oneHourRules [stopA, stopBOpt] [legAB, legBBOver] 0
    (by decide)

/-- Counterexample to C4 as stated: leg index 1 (oversized, optional
destination) is absent from every day of the plan. -/
theorem pack_leg_absent_cex :
    1 < [legAB, legBBOver].length ∧
    ((generateDayPlan oneHourRules [stopA, stopBOpt] [legAB, legBBOver]).1.map
      DayEntry.legs).flatten.count 1 = 0 := by
  refine ⟨by decide, ?_⟩
  rw [pack_cex_eval.1]
  decide

/-- C10: the concatenation of the plan's per-day leg-index lists is
strictly increasing with every index below the leg count (hence a
subsequence of the input indices, so no leg is reordered, duplicated or
split), and `droppedOptional` is exactly the list of destination names of
the unassigned indices in index order (so each index is either assigned to
exactly one day or recorded as dropped — never both, never neither). -/
theorem pack_index_partition (rules : TripRules) (parks : List Stop)
    (legs : List Leg) :
    List.Sorted (· < ·)
      (((generateDayPlan rules parks legs).1.map DayEntry.legs).flatten) ∧
    (∀ j ∈ ((generateDayPlan rules parks legs).1.map DayEntry.legs).flatten,
      j < legs.length) ∧
    (generateDayPlan rules parks legs).2 =
      droppedNamesUpTo legs legs.length
        (((generateDayPlan rules parks legs).1.map DayEntry.legs).flatten) :=
  ⟨(generateDayPlan_inv rules parks legs).1,
    (generateDayPlan_inv rules parks legs).2.1,
    (generateDayPlan_inv rules parks legs).2.2.1⟩

/-- Witness for `pack_index_partition`: its bound, applied to the concrete
assigned index 0 of an evaluated plan. -/
theorem pack_index_partition_witness :
    (0 : Nat) < [legAB, legBBOver].length :=
  (pack_index_partition oneHourRules [stopA, stopBOpt] [legAB, legBBOver]).2.1
    0 (by rw [pack_cex_eval.1]; decide)

/- ===============================
   OVERSIZED-LEG LEMMAS (C5)
================================ -/

/-- Running-day arithmetic invariant: accumulated drive minutes are
nonnegative, and an empty running day has zero accumulated minutes. -/
def DriveInv (st : PackState) : Prop :=
  0 ≤ st.dayDriveMins ∧ (st.dayLegs = [] → st.dayDriveMins = 0)

lemma pushDay_drive_zero (w b : ℚ) (v : ℤ) (st : PackState)
    (he : st.dayLegs = [] → st.dayDriveMins = 0) :
    (pushDay w b v st).dayDriveMins = 0 := by
  cases h : st.dayLegs with
  | nil => simpa [pushDay, h] using he h
  | cons x xs => simp [pushDay, h]

lemma packStep_driveInv (budget w b : ℚ) (v : ℤ) (parks : List Stop)
    (st : PackState) (i : Nat) (leg : Leg)
    (h : DriveInv st) (hl : 0 ≤ leg.hours) :
    DriveInv (packStep budget w b v parks st i leg) := by
  obtain ⟨h0, he⟩ := h
  have hm : 0 ≤ leg.hours * 60 := mul_nonneg hl (by norm_num)
  simp only [packStep]
  by_cases hday : st.dayLegs ≠ [] ∧ budget < st.dayDriveMins + leg.hours * 60
  · rw [if_pos hday]
    by_cases hms : destIsMustSee parks leg.toId = true
    · rw [if_pos hms]
      constructor
      · simp only [addLeg]
        rw [pushDay_drive_zero w b v st he]
        simpa using hm
      · intro hc
        simp [addLeg] at hc
    · rw [if_neg hms]
      exact ⟨h0, he⟩
  · rw [if_neg hday]
    constructor
    · simp only [addLeg]
      exact add_nonneg h0 hm
    · intro hc
      simp [addLeg] at hc

lemma packLoop_driveInv (budget w b : ℚ) (v : ℤ) (parks : List Stop) :
    ∀ (rest : List Leg) (k : Nat) (st : PackState),
      (∀ l ∈ rest, 0 ≤ l.hours) → DriveInv st →
      DriveInv (packLoop budget w b v parks rest k st) := by
  intro rest
  induction rest with
  | nil => intro k st _ h; exact h
  | cons leg rest' ih =>
    intro k st hnn h
    exact ih (k + 1) _ (fun l hl => hnn l (List.mem_cons_of_mem _ hl))
      (packStep_driveInv budget w b v parks st k leg h
        (hnn leg (List.mem_cons_self _ _)))

/-- An oversized must-see leg opens a fresh day holding exactly itself. -/
lemma packStep_newday (budget w b : ℚ) (v : ℤ) (parks : List Stop)
    (st : PackState) (i : Nat) (leg : Leg) (h : DriveInv st)
    (hover : budget < leg.hours * 60)
    (hms : destIsMustSee parks leg.toId = true) :
    (packStep budget w b v parks st i leg).dayLegs = [i] ∧
    (packStep budget w b v parks st i leg).dayDriveMins = leg.hours * 60 := by
  obtain ⟨h0, he⟩ := h
  simp only [packStep]
  cases hdl : st.dayLegs with
  | nil =>
    rw [if_neg (by simp [hdl])]
    constructor
    · simp [addLeg, hdl]
    · simp [addLeg, he hdl]
  | cons x xs =>
    rw [if_pos ⟨by simp [hdl], lt_of_lt_of_le hover (le_add_of_nonneg_left h0)⟩,
      if_pos hms]
    constructor
    · simp [addLeg, pushDay, hdl]
    · simp only [addLeg]
      rw [pushDay_drive_zero w b v st he]
      simp

lemma pushDay_legs_mem (w b : ℚ) (v : ℤ) (st : PackState)
    (h : st.dayLegs ≠ []) :
    st.dayLegs ∈ ((pushDay w b v st).plan.map DayEntry.legs) := by
  cases hdl : st.dayLegs with
  | nil => exact absurd hdl h
  | cons x xs => simp [pushDay, hdl]

lemma pushDay_legs_mem_mono (w b : ℚ) (v : ℤ) (st : PackState)
    (L : List Nat) (hL : L ∈ st.plan.map DayEntry.legs) :
    L ∈ ((pushDay w b v st).plan.map DayEntry.legs) := by
  cases hdl : st.dayLegs with
  | nil => simpa [pushDay, hdl] using hL
  | cons x xs => simp [pushDay, hdl, hL]

lemma packStep_legs_mem (budget w b : ℚ) (v : ℤ) (parks : List Stop)
    (st : PackState) (i : Nat) (leg : Leg) (L : List Nat)
    (hL : L ∈ st.plan.map DayEntry.legs) :
    L ∈ ((packStep budget w b v parks st i leg).plan.map DayEntry.legs) := by
  simp only [packStep]
  by_cases hday : st.dayLegs ≠ [] ∧ budget < st.dayDriveMins + leg.hours * 60
  · rw [if_pos hday]
    by_cases hms : destIsMustSee parks leg.toId = true
    · rw [if_pos hms]
      exact pushDay_legs_mem_mono w b v st L hL
    · rw [if_neg hms]
      exact hL
  · rw [if_neg hday]
    exact hL

lemma packLoop_legs_mem (budget w b : ℚ) (v : ℤ) (parks : List Stop) :
    ∀ (rest : List Leg) (k : Nat) (st : PackState) (L : List Nat),
      L ∈ st.plan.map DayEntry.legs →
      L ∈ ((packLoop budget w b v parks rest k st).plan.map DayEntry.legs) := by
  intro rest
  induction rest with
  | nil => intro k st L hL; exact hL
  | cons leg rest' ih =>
    intro k st L hL
    exact ih (k + 1) _ L (packStep_legs_mem budget w b v parks st k leg L hL)

/-- Once a day holds exactly the oversized leg `[i]`, no later leg joins it:
the closed plan ends up containing a day whose leg list is `[i]`. -/
lemma packLoop_oversized (budget w b : ℚ) (v : ℤ) (parks : List Stop)
    (i : Nat) :
    ∀ (rest : List Leg) (k : Nat) (st : PackState),
      (∀ l ∈ rest, 0 ≤ l.hours) →
      st.dayLegs = [i] → budget < st.dayDriveMins →
      [i] ∈ ((pushDay w b v
        (packLoop budget w b v parks rest k st)).plan.map DayEntry.legs) := by
  intro rest
  induction rest with
  | nil =>
    intro k st _ hdl hov
    have h := pushDay_legs_mem w b v st (by rw [hdl]; simp)
    rwa [hdl] at h
  | cons leg rest' ih =>
    intro k st hnn hdl hov
    have hlm : 0 ≤ leg.hours * 60 :=
      mul_nonneg (hnn leg (List.mem_cons_self _ _)) (by norm_num)
    have hcond : st.dayLegs ≠ [] ∧
        budget < st.dayDriveMins + leg.hours * 60 :=
      ⟨by rw [hdl]; simp, lt_of_lt_of_le hov (le_add_of_nonneg_right hlm)⟩
    show [i] ∈ ((pushDay w b v (packLoop budget w b v parks rest' (k + 1)
      (packStep budget w b v parks st k leg))).plan.map DayEntry.legs)
    by_cases hms : destIsMustSee parks leg.toId = true
    · have hstep : packStep budget w b v parks st k leg =
          addLeg (pushDay w b v st) k (leg.hours * 60) leg.miles := by
        simp only [packStep]
        rw [if_pos hcond, if_pos hms]
      have h1 : [i] ∈ ((pushDay w b v st).plan.map DayEntry.legs) := by
        have h := pushDay_legs_mem w b v st (by rw [hdl]; simp)
        rwa [hdl] at h
      have h2 : [i] ∈ ((packStep budget w b v parks st k leg).plan.map
          DayEntry.legs) := by
        rw [hstep]
        exact h1
      have h3 := packLoop_legs_mem budget w b v parks rest' (k + 1) _ [i] h2
      exact pushDay_legs_mem_mono w b v _ [i] h3
    · have hstep : packStep budget w b v parks st k leg =
          { st with droppedOptional := st.droppedOptional ++ [leg.toName] } := by
        simp only [packStep]
        rw [if_pos hcond, if_neg hms]
      rw [hstep]
      exact ih (k + 1) _ (fun l hl => hnn l (List.mem_cons_of_mem _ hl))
        hdl hov

lemma packLoop_append (budget w b : ℚ) (v : ℤ) (parks : List Stop) :
    ∀ (l1 l2 : List Leg) (k : Nat) (st : PackState),
      packLoop budget w b v parks (l1 ++ l2) k st =
        packLoop budget w b v parks l2 (k + l1.length)
          (packLoop budget w b v parks l1 k st) := by
  intro l1
  induction l1 with
  | nil => intro l2 k st; simp [packLoop]
  | cons x xs ih =>
    intro l2 k st
    simp only [List.cons_append, packLoop, List.append_eq]
    rw [ih]
    have : k + 1 + xs.length = k + (xs.length + 1) := by omega
    rw [this]
    rfl

/-- C5 (amended): a leg whose drive time alone exceeds the derived budget
and whose destination is must-see occupies a day of its own — some day's
leg list is exactly `[i]` — provided leg durations are nonnegative (as
`buildLegs` produces).  An oversized leg with an OPTIONAL destination can
instead be dropped (see the counterexample). -/
theorem pack_oversized_own_day (rules : TripRules) (parks : List Stop)
    (legs : List Leg) (i : Nat) (hi : i < legs.length)
    (hnn : ∀ l ∈ legs, 0 ≤ l.hours)
    (hover : driveBudgetMins rules < (legs.getD i default).hours * 60)
    (hms : destIsMustSee parks (legs.getD i default).toId = true) :
    [i] ∈ ((generateDayPlan rules parks legs).1.map DayEntry.legs) := by
  have hne : legs ≠ [] := by
    intro e
    subst e
    simp at hi
  have hsplit : legs = legs.take i ++ legs.getD i default :: legs.drop (i + 1) := by
    conv_lhs => rw [← List.take_append_drop i legs]
    congr 1
    rw [List.drop_eq_get_cons hi, List.getD_eq_get?, List.get?_eq_get hi]
    rfl
  simp only [generateDayPlan, if_neg hne]
  conv_lhs =>
    rw [hsplit]
  rw [packLoop_append]
  have hlen : (legs.take i).length = i := by
    rw [List.length_take]
    omega
  rw [hlen, Nat.zero_add]
  simp only [packLoop]
  have hinv1 : DriveInv (packLoop (driveBudgetMins rules) (packWakeMins rules)
      rules.breakMinutesPerDay (round (rules.visitHoursPerPark * 60)) parks
      (legs.take i) 0 initPackState) :=
    packLoop_driveInv _ _ _ _ _ _ _ _
      (fun l hl => hnn l (List.take_subset i legs hl))
      ⟨le_refl 0, fun _ => rfl⟩
  have hnd := packStep_newday (driveBudgetMins rules) (packWakeMins rules)
    rules.breakMinutesPerDay (round (rules.visitHoursPerPark * 60)) parks _
    i (legs.getD i default) hinv1 hover hms
  exact packLoop_oversized (driveBudgetMins rules) (packWakeMins rules)
    rules.breakMinutesPerDay (round (rules.visitHoursPerPark * 60)) parks i
    (legs.drop (i + 1)) (i + 1) _
    (fun l hl => hnn l (List.drop_subset (i + 1) legs hl))
    hnd.1 (by rw [hnd.2]; exact hover)

/-- Witness for `pack_oversized_own_day`: the oversized must-see leg at
index 1 gets a day of its own. -/
theorem pack_oversized_own_day_witness :
    [1] ∈ ((generateDayPlan oneHourRules [stopA, stopBOpt]
      [legAB, legBCOver]).1.map DayEntry.legs) :=
  pack_oversized_own_day oneHourRules [stopA, stopBOpt] [legAB, legBCOver] 1
    (by decide)
    (by intro l hl; fin_cases hl <;> norm_num [legAB, legBCOver])
    (by rw [oneHourRules_budget]; norm_num [legBCOver])
    (by decide)

/-- Counterexample to C5 as stated: leg 1's drive time alone exceeds the
budget, yet it appears in no day at all (its optional destination lets the
packer drop it instead). -/
theorem pack_oversized_cex :
    driveBudgetMins oneHourRules < legBBOver.hours * 60 ∧
    (∀ l ∈ [legAB, legBBOver], 0 ≤ l.hours) ∧
    [1] ∉ ((generateDayPlan oneHourRules [stopA, stopBOpt]
      [legAB, legBBOver]).1.map DayEntry.legs) := by
  refine ⟨?_, ?_, ?_⟩
  · rw [oneHourRules_budget]
    norm_num [legBBOver]
  · intro l hl
    fin_cases hl <;> norm_num [legAB, legBBOver]
  · rw [pack_cex_eval.1]
    decide

end ParksPlanner
